import Mathlib

/-!
Verification development for the channel-packing image encoder of
`io_scene_gltf2/blender/exp/gltf2_blender_image.py`.

The Python module describes an output image by a dict `fills` mapping each
destination channel (an int, `Channel.R = 0 .. Channel.A = 3`) to either
`FillImage(image, src_chan)` or `FillWhite()`, and encodes it either by
reusing an existing Blender image ("happy path") or by synthesizing it with
a compositor graph ("unhappy path").

Embedding notes:
* Blender images live in the name-keyed collection `bpy.data.images`, in
  which names are unique, so image identity is modelled by the image name;
  the mutable global collection is a `Store := String → Image`.
* Python dicts are insertion-ordered association lists with unique keys.
* The external world (filesystem, `image.save()`, the render engine) is an
  abstract `Env`; a fallible external step returns `Option Bytes`, `none`
  standing for a raised exception.
* Exceptions raised by the module itself (the size `assert`, a failing
  `image.save()`, a failing render) are an `Except EncErr` result; the
  `finally` blocks of the source are explicit state restorations performed
  on every exit path of the corresponding Lean definition.
-/

namespace GltfBlenderImage

abbrev Bytes := List Nat

/-- Channels are `enum.IntEnum` values in the source and are also mixed with
plain ints (`range(image.channels)` keys), so a channel is a `Nat`. -/
abbrev Chan := Nat

/-- `Channel.R` -/
def channelR : Chan := 0
/-- `Channel.G` -/
def channelG : Chan := 1
/-- `Channel.B` -/
def channelB : Chan := 2
/-- `Channel.A` -/
def channelA : Chan := 3

/-- The attributes of a `bpy.types.Image` used by the module.  `colorspace`
is `image.colorspace_settings.name`, `file_format` the currently persisted
container format, `filepath_raw` the backing-file path. -/
structure Image where
  name : String
  channels : Nat
  width : Nat
  height : Nat
  colorspace : String
  is_dirty : Bool
  filepath_raw : String
  file_format : String
deriving DecidableEq, Repr

/-- A fill descriptor: `FillImage(image, src_chan)` (the image recorded by
its unique `bpy.data` name) or `FillWhite()`. -/
inductive Fill where
  | fromImage (imageName : String) (srcChan : Chan)
  | white
deriving DecidableEq, Repr

/-- `self.fills`: an insertion-ordered dict from destination channel to
fill descriptor, with unique keys. -/
abbrev Fills := List (Chan × Fill)

/-- Python dict assignment `fills[k] = v`: replace in place if the key is
present, else append. -/
def dictSet (fills : Fills) (k : Chan) (v : Fill) : Fills :=
  if fills.any (fun p => p.1 == k) then
    fills.map (fun p => if p.1 == k then (k, v) else p)
  else fills ++ [(k, v)]

/-- Python `k in fills`. -/
def dictMem (fills : Fills) (k : Chan) : Bool :=
  fills.any (fun p => p.1 == k)

/-- The `ExportImage` object.  `mimeTypeField` models the instance
attribute `self.mime_type`: `none` when the attribute has never been
assigned, `some m` after `encode` executed `self.mime_type = mime_type`
with argument `m`. -/
structure ExportImage where
  fills : Fills
  mimeTypeField : Option (Option String) := none
deriving DecidableEq, Repr

/-- Reading `self.mime_type` (only ever done after `encode` assigned it). -/
def ExportImage.mime_type (e : ExportImage) : Option String :=
  e.mimeTypeField.getD none

/-- `ExportImage.fill_image` -/
def ExportImage.fill_image (e : ExportImage) (imageName : String) (dst src : Chan) :
    ExportImage :=
  { e with fills := dictSet e.fills dst (.fromImage imageName src) }

/-- `ExportImage.fill_white` -/
def ExportImage.fill_white (e : ExportImage) (dst : Chan) : ExportImage :=
  { e with fills := dictSet e.fills dst .white }

/-- `ExportImage.is_filled` -/
def ExportImage.is_filled (e : ExportImage) (chan : Chan) : Bool :=
  dictMem e.fills chan

/-- `ExportImage.from_blender_image`: one `FillImage(image, c, c)` per
channel `c` in `range(image.channels)`. -/
def from_blender_image (image : Image) : ExportImage :=
  (List.range image.channels).foldl
    (fun acc c => acc.fill_image image.name c c) { fills := [] }

/-- `isinstance(fill, FillImage)` -/
def Fill.isFromImage : Fill → Bool
  | .fromImage _ _ => true
  | .white => false

/-- The names generated by `(fill.image.name for fill in fills.values())`.
(The generator is only ever forced when every fill is a `FillImage`, so
skipping `FillWhite` entries is faithful.) -/
def fillNames (fills : Fills) : List String :=
  fills.filterMap (fun p => match p.2 with
    | .fromImage n _ => some n
    | .white => none)

/-- `ExportImage.__on_happy_path`.  The second conjunct of the source reads
`fill.src_chan` on every fill, which only type-checks because `and`
short-circuits after the first conjunct; the `| white => true` arm is
irrelevant for the same reason. -/
def onHappyPath (e : ExportImage) : Bool :=
  e.fills.all (fun p => p.2.isFromImage) &&
  e.fills.all (fun p => match p.2 with
    | .fromImage _ s => p.1 == s
    | .white => true) &&
  ((fillNames e.fills).dedup.length == 1)

/-- `bpy.data.images`, keyed by unique image name. -/
abbrev Store := String → Image

/-- Mutating the image object named `n` (visible through every reference to
it, since references are by identity = by name). -/
def Store.updateImg (store : Store) (n : String) (img : Image) : Store :=
  fun m => if m = n then img else store m

/-- `image.colorspace_settings.name = c` -/
def setColorspace (img : Image) (c : String) : Image :=
  { img with colorspace := c }

/-- `(image.size[0], image.size[1])` -/
def imgSize (store : Store) (n : String) : Nat × Nat :=
  ((store n).width, (store n).height)

/-- One input slot of the `CompositorNodeCombRGBA` node: the default
constant (1.0) or a link from channel `srcChan` of a source image. -/
inductive CombInput where
  | const (v : Rat)
  | fromChan (imageName : String) (srcChan : Chan)
deriving DecidableEq, Repr

/-- The configuration `__encode_unhappy`/`_render_tmp_scene` hand to the
render engine: resolution, output container format, output color mode,
display device, and the four combine-node inputs. -/
structure RenderRequest where
  width : Nat
  height : Nat
  fileFormat : String
  colorMode : String
  displayDevice : String
  combInputs : List CombInput
deriving DecidableEq, Repr

/-- The external world: the filesystem (`isfile` is `os.path.isfile`;
`readFile` is an `open(path, 'rb').read()`, with `none` standing for the
OSError such an unguarded open raises on an existing-but-unreadable file),
`bpy.path.abspath`, the temporary directory handed out for this call,
`image.save()` (the bytes it would write, `none` when it raises), the
render engine (`none` when the render raises), and the container format a
byte buffer decodes as. -/
structure Env where
  isfile : String → Bool
  readFile : String → Option Bytes
  abspath : String → String
  tmpdir : String
  save : Image → Option Bytes
  render : RenderRequest → Option Bytes
  formatOf : Bytes → String

/-- Errors `encode` can raise (or, for `noneResult`, the non-`bytes`
result `__encode_happy` produces when `self.fills` is empty).
`readFailure` is the OSError of the unguarded `open` during fast-path
verbatim reuse: the file passed `os.path.isfile` but failed to open/read;
no handler exists, so it propagates. -/
inductive EncErr where
  | dimensionMismatch
  | engineFailure
  | saveFailure
  | readFailure
  | noneResult
  | attrError
deriving DecidableEq, Repr

/-- The mime-type table `{"image/jpeg": "JPEG", "image/png": "PNG"}` with
`.get(mime_type, "PNG")`. -/
def fileFormatOfMime (mime : Option String) : String :=
  match mime with
  | some "image/jpeg" => "JPEG"
  | some "image/png" => "PNG"
  | _ => "PNG"

/-- The image as mutated by the save branch of `__encode_from_image`:
`image.filepath_raw = tmpfilename; image.file_format = file_format`. -/
def mutatedImg (env : Env) (store : Store) (imageName : String) (fmt : String) : Image :=
  { store imageName with filepath_raw := env.tmpdir ++ "/img", file_format := fmt }

/-- The image after the `finally` block of the save branch put the saved
`orig_filepath_raw`/`orig_file_format` back on the (mutated) live object. -/
def restoredImg (env : Env) (store : Store) (imageName : String) (fmt : String) : Image :=
  { (store.updateImg imageName (mutatedImg env store imageName fmt)) imageName with
      filepath_raw := (store imageName).filepath_raw,
      file_format := (store imageName).file_format }

/-- The image store after the mutation and the guaranteed restoration of
the save branch. -/
def restoredStore (env : Env) (store : Store) (imageName : String) (fmt : String) : Store :=
  (store.updateImg imageName (mutatedImg env store imageName fmt)).updateImg imageName
    (restoredImg env store imageName fmt)

/-- The save-and-read-back branch of `__encode_from_image`: temporarily
point the image at a file in the scoped temporary directory with the target
format, `image.save()`, and in the `finally` block restore
`filepath_raw`/`file_format`; then read the written bytes back.  A failing
save still restores, and the exception propagates. -/
def saveBranch (env : Env) (store : Store) (imageName : String) (file_format : String) :
    Except EncErr Bytes × Store :=
  match env.save (mutatedImg env store imageName file_format) with
  | none => (.error .saveFailure, restoredStore env store imageName file_format)
  | some bytes => (.ok bytes, restoredStore env store imageName file_format)

/-- `ExportImage.__encode_from_image` (the local `file_format` variable is
inlined as `fileFormatOfMime mime`).  When the persisted format already
matches and the image is clean, the code checks `os.path.isfile` and then
reads the backing file with an unguarded `open`: a file failing the
`isfile` check falls through to `saveBranch`, while a file that passes
`isfile` but fails to open raises an OSError that propagates
(`.error .readFailure`). -/
def encodeFromImage (env : Env) (store : Store) (imageName : String)
    (mime : Option String) : Except EncErr Bytes × Store :=
  if fileFormatOfMime mime == (store imageName).file_format &&
      !(store imageName).is_dirty then
    if env.isfile (env.abspath (store imageName).filepath_raw) then
      match env.readFile (env.abspath (store imageName).filepath_raw) with
      | some bytes => (.ok bytes, store)
      | none => (.error .readFailure, store)
    else
      saveBranch env store imageName (fileFormatOfMime mime)
  else
    saveBranch env store imageName (fileFormatOfMime mime)

/-- `ExportImage.__encode_happy`: encode from the first fill's image; with
no fills the loop body never runs and Python returns `None`; a `FillWhite`
first fill would raise `AttributeError` on `fill.image`. -/
def encodeHappy (env : Env) (store : Store) (e : ExportImage) :
    Except EncErr Bytes × Store :=
  match e.fills with
  | [] => (.error .noneResult, store)
  | (_, .fromImage n _) :: _ => encodeFromImage env store n e.mime_type
  | (_, .white) :: _ => (.error .attrError, store)

/-- The state accumulated by the `for dst_chan, fill in self.fills.items()`
loop of `__encode_unhappy`: the mutated image store, the saved
`orig_colorspaces` dict, the running `size`, and the pending exception
(the size `assert`), if any. -/
structure LoopState where
  store : Store
  origColorspaces : List (String × String)
  size : Option (Nat × Nat)
  err : Option EncErr

/-- The fills loop of `__encode_unhappy`.  For each `FillImage` fill, in
source order: save the image's colorspace if its name is not yet a key of
`orig_colorspaces`, force the colorspace to `'Non-Color'`, then check the
image size against the running `size` (the `assert`, which aborts the loop
with an exception). -/
def unhappyLoop (store : Store) (orig : List (String × String))
    (size : Option (Nat × Nat)) : Fills → LoopState
  | [] => ⟨store, orig, size, none⟩
  | (_, .white) :: rest => unhappyLoop store orig size rest
  | (_, .fromImage n _) :: rest =>
    let orig' := if orig.any (fun p => p.1 == n) then orig
                 else orig ++ [(n, (store n).colorspace)]
    let store' := store.updateImg n (setColorspace (store n) "Non-Color")
    match size with
    | none => unhappyLoop store' orig' (some (imgSize store' n)) rest
    | some s =>
      if s = imgSize store' n then unhappyLoop store' orig' (some s) rest
      else ⟨store', orig', some s, some .dimensionMismatch⟩

/-- The combine-node input for destination channel `c`: linked from the
`FillImage` fill registered for `c`, else the default constant 1.0 set on
`comb_rgba.inputs[c].default_value`. -/
def combInputFor (fills : Fills) (c : Chan) : CombInput :=
  match fills.find? (fun p => p.1 == c) with
  | some (_, .fromImage n s) => .fromChan n s
  | _ => .const 1

/-- `_render_tmp_scene` sets `image_settings.file_format` only under
`if mime_type:` (a Python truthiness test, false for `None` and `""`);
otherwise the freshly created scene keeps Blender's factory default render
format, which is PNG. -/
def sceneFileFormat (mime : Option String) : String :=
  match mime with
  | some m => if m = "" then "PNG" else fileFormatOfMime (some m)
  | none => "PNG"

/-- The render request `__encode_unhappy` builds and hands to
`_render_tmp_scene`: `color_mode = 'RGBA' if Channel.A in fills else 'RGB'`,
`display_device = 'None'`, combine inputs as linked by the fills loop. -/
def buildRenderRequest (mime : Option String) (fills : Fills)
    (width height : Nat) : RenderRequest :=
  { width := width
    height := height
    fileFormat := sceneFileFormat mime
    colorMode := if dictMem fills channelA then "RGBA" else "RGB"
    displayDevice := "None"
    combInputs := [combInputFor fills 0, combInputFor fills 1,
                   combInputFor fills 2, combInputFor fills 3] }

/-- `bpy.ops.render.render` plus the read-back of the rendered file. -/
def renderResult (env : Env) (req : RenderRequest) : Except EncErr Bytes :=
  match env.render req with
  | some b => .ok b
  | none => .error .engineFailure

/-- The `finally` block of `__encode_unhappy`: for each saved entry, set
`bpy.data.images[img_name].colorspace_settings.name` back. -/
def restoreColorspaces (orig : List (String × String)) (store : Store) : Store :=
  orig.foldl (fun st p => st.updateImg p.1 (setColorspace (st p.1) p.2)) store

/-- The bytes (or exception) produced by the `try` part of
`__encode_unhappy` after the fills loop: a pending loop exception
propagates; otherwise `size` defaults to `(1, 1)` and the scene is
rendered. -/
def unhappyPayload (env : Env) (mime : Option String) (fills : Fills)
    (sizeOpt : Option (Nat × Nat)) (errOpt : Option EncErr) : Except EncErr Bytes :=
  match errOpt with
  | some err => .error err
  | none =>
    renderResult env
      (buildRenderRequest mime fills (sizeOpt.getD (1, 1)).1 (sizeOpt.getD (1, 1)).2)

/-- `ExportImage.__encode_unhappy`: run the fills loop, render (or
propagate the pending exception), and in the `finally` block restore every
saved colorspace on both exit paths. -/
def encodeUnhappy (env : Env) (store : Store) (e : ExportImage) :
    Except EncErr Bytes × Store :=
  (unhappyPayload env e.mime_type e.fills
      (unhappyLoop store [] none e.fills).size (unhappyLoop store [] none e.fills).err,
   restoreColorspaces (unhappyLoop store [] none e.fills).origColorspaces
      (unhappyLoop store [] none e.fills).store)

/-- `ExportImage.encode`: assign `self.mime_type = mime_type` on the
instance, then dispatch on `__on_happy_path()`.  The result is the
bytes-or-exception together with the final image store and the final state
of the `ExportImage` object itself. -/
def ExportImage.encode (env : Env) (store : Store) (e : ExportImage)
    (mime : Option String) : (Except EncErr Bytes × Store) × ExportImage :=
  if onHappyPath { e with mimeTypeField := some mime } then
    (encodeHappy env store { e with mimeTypeField := some mime },
     { e with mimeTypeField := some mime })
  else
    (encodeUnhappy env store { e with mimeTypeField := some mime },
     { e with mimeTypeField := some mime })

/-! ### Invariants used to reason about the colorspace save/restore -/

/-- `st` agrees with `st0` except possibly in colorspace tags. -/
def OffCS (st st0 : Store) : Prop :=
  ∀ n, setColorspace (st n) ((st0 n).colorspace) = st0 n

/-- The saved `orig_colorspaces` entries are well-formed with respect to
the pre-call store `st0`: keys are distinct (the dict saves each image at
most once, first reference wins) and each saved value is the pre-call
colorspace tag. -/
def SavedOK (st0 : Store) (os : List (String × String)) : Prop :=
  (os.map Prod.fst).Nodup ∧ ∀ p ∈ os, p.2 = (st0 p.1).colorspace

/-- Images that were never saved into `os` are still untouched. -/
def FreshEq (st st0 : Store) (os : List (String × String)) : Prop :=
  ∀ n, n ∉ os.map Prod.fst → st n = st0 n

/-! ### Concrete assets and worlds used for witnesses -/

/-- A 4×4 clean PNG image whose backing file exists. -/
def imgA : Image :=
  { name := "A", channels := 4, width := 4, height := 4, colorspace := "sRGB"
    is_dirty := false, filepath_raw := "/tex/A.png", file_format := "PNG" }

/-- An 8×8 PNG image, dimension-incompatible with `imgA`. -/
def imgB : Image :=
  { name := "B", channels := 4, width := 8, height := 8, colorspace := "sRGB"
    is_dirty := false, filepath_raw := "/tex/B.png", file_format := "PNG" }

/-- A concrete image store: `"B"` holds `imgB`, any other name a copy of
`imgA` under that name. -/
def store0 : Store := fun n =>
  if n = "B" then { imgB with name := n } else { imgA with name := n }

def bytesA : Bytes := [1, 2, 3]

/-- A world where only `imgA`'s backing file exists (and is readable) and
every external operation (save, render) raises. -/
def env0 : Env :=
  { isfile := fun p => p == "/tex/A.png"
    readFile := fun p => if p = "/tex/A.png" then some bytesA else none
    abspath := fun p => p
    tmpdir := "/tmp/gltf"
    save := fun _ => none
    render := fun _ => none
    formatOf := fun _ => "PNG" }

/-- A world where saving and rendering succeed exactly for PNG output and
every produced byte buffer decodes as PNG. -/
def envOk : Env :=
  { isfile := fun p => p == "/tex/A.png"
    readFile := fun p => if p = "/tex/A.png" then some bytesA else none
    abspath := fun p => p
    tmpdir := "/tmp/gltf"
    save := fun img => if img.file_format = "PNG" then some [7] else none
    render := fun req => if req.fileFormat = "PNG" then some [5] else none
    formatOf := fun _ => "PNG" }

/-- A world where `imgA`'s backing file exists (`os.path.isfile` true) but
every `open`/`read` raises — an existing-but-unreadable file. -/
def envUnread : Env :=
  { isfile := fun p => p == "/tex/A.png"
    readFile := fun _ => none
    abspath := fun p => p
    tmpdir := "/tmp/gltf"
    save := fun _ => none
    render := fun _ => none
    formatOf := fun _ => "PNG" }

/-- A non-happy spec routing channel G of `imgA` into channel R. -/
def spec2 : ExportImage := { fills := [(0, Fill.fromImage "A" 1)] }

/-- A spec referencing the dimension-incompatible `imgA` and `imgB`. -/
def spec3 : ExportImage :=
  { fills := [(0, Fill.fromImage "A" 0), (1, Fill.fromImage "B" 1)] }

/-- A happy-path spec: channel R drawn from channel R of `imgA`. -/
def spec4 : ExportImage := { fills := [(0, Fill.fromImage "A" 0)] }

/-- A constant-only spec (forced onto the composite path). -/
def spec7 : ExportImage := { fills := [(0, Fill.white)] }

/-! ### Basic lemmas -/

theorem updateImg_self (store : Store) (n : String) (img : Image) :
    store.updateImg n img n = img := by
  simp [Store.updateImg]

theorem updateImg_ne (store : Store) (n m : String) (img : Image) (h : m ≠ n) :
    store.updateImg n img m = store m := by
  simp [Store.updateImg, h]

theorem setColorspace_setColorspace (i : Image) (a b : String) :
    setColorspace (setColorspace i a) b = setColorspace i b := rfl

theorem setColorspace_self (i : Image) :
    setColorspace i i.colorspace = i := rfl

theorem fills_set_mime (e : ExportImage) (m : Option (Option String)) :
    ({ e with mimeTypeField := m } : ExportImage).fills = e.fills := rfl

theorem mime_type_set_mime (e : ExportImage) (m : Option String) :
    ({ e with mimeTypeField := some m } : ExportImage).mime_type = m := rfl

theorem setColorspace_width (i : Image) (c : String) :
    (setColorspace i c).width = i.width := rfl

theorem setColorspace_height (i : Image) (c : String) :
    (setColorspace i c).height = i.height := rfl

theorem imgSize_OffCS {st st0 : Store} (h : OffCS st st0) (n : String) :
    imgSize st n = imgSize st0 n := by
  have hw := congrArg Image.width (h n)
  rw [setColorspace_width] at hw
  have hh := congrArg Image.height (h n)
  rw [setColorspace_height] at hh
  simp [imgSize, hw, hh]

theorem OffCS_update {store st0 : Store} (h : OffCS store st0) (n : String) :
    OffCS (store.updateImg n (setColorspace (store n) "Non-Color")) st0 := by
  intro m
  by_cases hm : m = n
  · rw [hm, updateImg_self, setColorspace_setColorspace]
    exact h n
  · rw [updateImg_ne _ _ _ _ hm]
    exact h m

/-! ### The `finally` restoration puts every colorspace tag back -/

theorem restore_eq (st0 : Store) :
    ∀ (os : List (String × String)) (st : Store),
      SavedOK st0 os → FreshEq st st0 os → OffCS st st0 →
      ∀ n, restoreColorspaces os st n = st0 n := by
  intro os
  induction os with
  | nil =>
    intro st _ hf _ n
    exact hf n (by simp)
  | cons p os ih =>
    intro st hs hf hoff n
    have hkey : p.1 ∉ os.map Prod.fst ∧ (os.map Prod.fst).Nodup := by
      have := hs.1
      rw [List.map_cons, List.nodup_cons] at this
      exact this
    have hsaved : p.2 = (st0 p.1).colorspace := hs.2 p (List.mem_cons_self p os)
    have hstep : restoreColorspaces (p :: os) st =
        restoreColorspaces os (st.updateImg p.1 (setColorspace (st p.1) p.2)) := rfl
    rw [hstep]
    refine ih _ ⟨hkey.2, fun q hq => hs.2 q (List.mem_cons_of_mem p hq)⟩ ?_ ?_ n
    · intro m hm
      by_cases hmp : m = p.1
      · rw [hmp, updateImg_self, hsaved]
        exact hoff p.1
      · rw [updateImg_ne _ _ _ _ hmp]
        exact hf m (by
          rw [List.map_cons, List.mem_cons]
          rintro (h | h)
          · exact hmp h
          · exact hm h)
    · intro m
      by_cases hmp : m = p.1
      · rw [hmp, updateImg_self, setColorspace_setColorspace]
        exact hoff p.1
      · rw [updateImg_ne _ _ _ _ hmp]
        exact hoff m

/-! ### The fills loop maintains the save/restore invariants -/

theorem unhappyLoop_inv (st0 : Store) :
    ∀ (entries : Fills) (store : Store) (orig : List (String × String))
      (size : Option (Nat × Nat)),
      SavedOK st0 orig → FreshEq store st0 orig → OffCS store st0 →
      SavedOK st0 (unhappyLoop store orig size entries).origColorspaces ∧
      FreshEq (unhappyLoop store orig size entries).store st0
        (unhappyLoop store orig size entries).origColorspaces ∧
      OffCS (unhappyLoop store orig size entries).store st0 := by
  intro entries
  induction entries with
  | nil =>
    intro store orig size hs hf ho
    exact ⟨hs, hf, ho⟩
  | cons hd rest ih =>
    obtain ⟨d, fl⟩ := hd
    cases fl with
    | white =>
      intro store orig size hs hf ho
      exact ih store orig size hs hf ho
    | fromImage n s =>
      intro store orig size hs hf ho
      have hstep :
          SavedOK st0 (if orig.any (fun p => p.1 == n) then orig
              else orig ++ [(n, (store n).colorspace)]) ∧
          FreshEq (store.updateImg n (setColorspace (store n) "Non-Color")) st0
            (if orig.any (fun p => p.1 == n) then orig
              else orig ++ [(n, (store n).colorspace)]) ∧
          OffCS (store.updateImg n (setColorspace (store n) "Non-Color")) st0 := by
        refine ⟨?_, ?_, OffCS_update ho n⟩
        · by_cases hmem : orig.any (fun p => p.1 == n) = true
          · rw [if_pos hmem]
            exact hs
          · rw [if_neg hmem]
            have hfreshn : n ∉ orig.map Prod.fst := by
              intro hn
              obtain ⟨p, hp, hpn⟩ := List.mem_map.mp hn
              exact hmem (List.any_eq_true.mpr ⟨p, hp, by simp [hpn]⟩)
            constructor
            · rw [List.map_append]
              simp only [List.map_cons, List.map_nil]
              rw [List.nodup_append]
              exact ⟨hs.1, List.nodup_singleton n, by
                simp only [List.disjoint_singleton]
                exact hfreshn⟩
            · intro q hq
              rcases List.mem_append.mp hq with h | h
              · exact hs.2 q h
              · have : q = (n, (store n).colorspace) := by simpa using h
                rw [this]
                simpa using congrArg Image.colorspace (hf n hfreshn)
        · intro m hm
          by_cases hmn : m = n
          · exfalso
            by_cases hmem : orig.any (fun p => p.1 == n) = true
            · rw [if_pos hmem] at hm
              obtain ⟨p, hp, hpn⟩ := List.any_eq_true.mp hmem
              have hp1 : p.1 = n := by simpa using hpn
              exact hm (by
                rw [hmn]
                exact List.mem_map.mpr ⟨p, hp, hp1⟩)
            · rw [if_neg hmem] at hm
              refine hm (List.mem_map.mpr ⟨(n, (store n).colorspace), ?_, hmn.symm⟩)
              exact List.mem_append.mpr (Or.inr (by simp))
          · rw [updateImg_ne _ _ _ _ hmn]
            refine hf m ?_
            intro hc
            by_cases hmem : orig.any (fun p => p.1 == n) = true
            · rw [if_pos hmem] at hm
              exact hm hc
            · rw [if_neg hmem] at hm
              obtain ⟨p, hp, hpm⟩ := List.mem_map.mp hc
              exact hm (List.mem_map.mpr ⟨p, List.mem_append.mpr (Or.inl hp), hpm⟩)
      show SavedOK st0 (unhappyLoop store orig size ((d, .fromImage n s) :: rest)).origColorspaces ∧ _ ∧ _
      cases size with
      | none =>
        exact ih _ _ _ hstep.1 hstep.2.1 hstep.2.2
      | some sz =>
        by_cases hsz :
            sz = imgSize (store.updateImg n (setColorspace (store n) "Non-Color")) n
        · have hred : unhappyLoop store orig (some sz) ((d, .fromImage n s) :: rest) =
              unhappyLoop (store.updateImg n (setColorspace (store n) "Non-Color"))
                (if orig.any (fun p => p.1 == n) then orig
                  else orig ++ [(n, (store n).colorspace)]) (some sz) rest := by
            simp only [unhappyLoop]
            rw [if_pos hsz]
          rw [hred]
          exact ih _ _ _ hstep.1 hstep.2.1 hstep.2.2
        · have hred : unhappyLoop store orig (some sz) ((d, .fromImage n s) :: rest) =
              ⟨store.updateImg n (setColorspace (store n) "Non-Color"),
                (if orig.any (fun p => p.1 == n) then orig
                  else orig ++ [(n, (store n).colorspace)]),
                some sz, some .dimensionMismatch⟩ := by
            simp only [unhappyLoop]
            rw [if_neg hsz]
          rw [hred]
          exact hstep

/-- Whatever `__encode_unhappy` does (render, raise the size assert, or
fail to render), the `finally` block leaves the whole image store exactly
as it was before the call. -/
theorem encodeUnhappy_store (env : Env) (store : Store) (e : ExportImage) :
    ∀ m, (encodeUnhappy env store e).2 m = store m := by
  intro m
  have hinv := unhappyLoop_inv store e.fills store [] none
    ⟨by simp, by intro p hp; exact absurd hp (by simp)⟩
    (fun n _ => rfl) (fun n => setColorspace_self (store n))
  exact restore_eq store _ _ hinv.1 hinv.2.1 hinv.2.2 m

/-! ### The size `assert` of the fills loop -/

/-- If the loop runs to completion with a size anchor `s`, every image
referenced by a `FillImage` fill of the remaining entries has size `s`. -/
theorem unhappyLoop_some_sizes (st0 : Store) :
    ∀ (entries : Fills) (store : Store) (orig : List (String × String)) (s : Nat × Nat),
      OffCS store st0 →
      (unhappyLoop store orig (some s) entries).err = none →
      ∀ n ∈ fillNames entries, imgSize st0 n = s := by
  intro entries
  induction entries with
  | nil =>
    intro store orig s _ _ n hn
    exact absurd hn (by simp [fillNames])
  | cons hd rest ih =>
    obtain ⟨d, fl⟩ := hd
    cases fl with
    | white =>
      intro store orig s ho herr n hn
      have hn' : n ∈ fillNames rest := by simpa [fillNames] using hn
      exact ih store orig s ho herr n hn'
    | fromImage n' s' =>
      intro store orig s ho herr n hn
      by_cases hsz :
          s = imgSize (store.updateImg n' (setColorspace (store n') "Non-Color")) n'
      · have hred : unhappyLoop store orig (some s) ((d, .fromImage n' s') :: rest) =
            unhappyLoop (store.updateImg n' (setColorspace (store n') "Non-Color"))
              (if orig.any (fun p => p.1 == n') then orig
                else orig ++ [(n', (store n').colorspace)]) (some s) rest := by
          simp only [unhappyLoop]
          rw [if_pos hsz]
        rw [hred] at herr
        have hoff' := OffCS_update ho n'
        have hanchor : imgSize st0 n' = s := by
          rw [← imgSize_OffCS hoff' n']
          exact hsz.symm
        have hn2 : n = n' ∨ n ∈ fillNames rest := by
          simpa [fillNames] using hn
        rcases hn2 with rfl | hn2
        · exact hanchor
        · exact ih _ _ s hoff' herr n hn2
      · have hred : (unhappyLoop store orig (some s) ((d, .fromImage n' s') :: rest)).err =
            some .dimensionMismatch := by
          simp only [unhappyLoop]
          rw [if_neg hsz]
        rw [hred] at herr
        cases herr

/-- If the loop runs to completion, any two images referenced by
`FillImage` fills have the same size. -/
theorem unhappyLoop_none_sizes (st0 : Store) :
    ∀ (entries : Fills) (store : Store) (orig : List (String × String)),
      OffCS store st0 →
      (unhappyLoop store orig none entries).err = none →
      ∀ n1 ∈ fillNames entries, ∀ n2 ∈ fillNames entries,
        imgSize st0 n1 = imgSize st0 n2 := by
  intro entries
  induction entries with
  | nil =>
    intro store orig _ _ n1 hn1
    exact absurd hn1 (by simp [fillNames])
  | cons hd rest ih =>
    obtain ⟨d, fl⟩ := hd
    cases fl with
    | white =>
      intro store orig ho herr n1 hn1 n2 hn2
      have hn1' : n1 ∈ fillNames rest := by simpa [fillNames] using hn1
      have hn2' : n2 ∈ fillNames rest := by simpa [fillNames] using hn2
      exact ih store orig ho herr n1 hn1' n2 hn2'
    | fromImage n' s' =>
      intro store orig ho herr n1 hn1 n2 hn2
      have hred : unhappyLoop store orig none ((d, .fromImage n' s') :: rest) =
          unhappyLoop (store.updateImg n' (setColorspace (store n') "Non-Color"))
            (if orig.any (fun p => p.1 == n') then orig
              else orig ++ [(n', (store n').colorspace)])
            (some (imgSize (store.updateImg n' (setColorspace (store n') "Non-Color")) n'))
            rest := by
        simp only [unhappyLoop]
      rw [hred] at herr
      have hoff' := OffCS_update ho n'
      have hanchor : ∀ n ∈ fillNames rest,
          imgSize st0 n =
            imgSize (store.updateImg n' (setColorspace (store n') "Non-Color")) n' :=
        unhappyLoop_some_sizes st0 rest _ _ _ hoff' herr
      have hhead : imgSize st0 n' =
          imgSize (store.updateImg n' (setColorspace (store n') "Non-Color")) n' :=
        (imgSize_OffCS hoff' n').symm
      have hall : ∀ n, n = n' ∨ n ∈ fillNames rest →
          imgSize st0 n =
            imgSize (store.updateImg n' (setColorspace (store n') "Non-Color")) n' := by
        rintro n (rfl | hn)
        · exact hhead
        · exact hanchor n hn
      have h1 := hall n1 (by simpa [fillNames] using hn1)
      have h2 := hall n2 (by simpa [fillNames] using hn2)
      rw [h1, h2]

/-- The loop either finishes cleanly or aborted on the size assert. -/
theorem unhappyLoop_err_cases :
    ∀ (entries : Fills) (store : Store) (orig : List (String × String))
      (size : Option (Nat × Nat)),
      (unhappyLoop store orig size entries).err = none ∨
      (unhappyLoop store orig size entries).err = some .dimensionMismatch := by
  intro entries
  induction entries with
  | nil =>
    intro store orig size
    exact Or.inl rfl
  | cons hd rest ih =>
    obtain ⟨d, fl⟩ := hd
    cases fl with
    | white =>
      intro store orig size
      exact ih store orig size
    | fromImage n s =>
      intro store orig size
      cases size with
      | none => exact ih _ _ _
      | some sz =>
        by_cases hsz :
            sz = imgSize (store.updateImg n (setColorspace (store n) "Non-Color")) n
        · have hred : unhappyLoop store orig (some sz) ((d, .fromImage n s) :: rest) =
              unhappyLoop (store.updateImg n (setColorspace (store n) "Non-Color"))
                (if orig.any (fun p => p.1 == n) then orig
                  else orig ++ [(n, (store n).colorspace)]) (some sz) rest := by
            simp only [unhappyLoop]
            rw [if_pos hsz]
          rw [hred]
          exact ih _ _ _
        · have hred : (unhappyLoop store orig (some sz) ((d, .fromImage n s) :: rest)).err =
              some .dimensionMismatch := by
            simp only [unhappyLoop]
            rw [if_neg hsz]
          rw [hred]
          exact Or.inr rfl

/-! ### The classifier -/

/-- `len(set(l)) = 1` means: the list has exactly one distinct element. -/
theorem dedup_length_one {l : List String} :
    l.dedup.length = 1 ↔ ∃ a, a ∈ l ∧ ∀ b ∈ l, b = a := by
  induction l with
  | nil => simp
  | cons a l ih =>
    by_cases ha : a ∈ l
    · rw [List.dedup_cons_of_mem ha, ih]
      constructor
      · rintro ⟨b, hbl, hall⟩
        refine ⟨b, List.mem_cons_of_mem a hbl, ?_⟩
        intro c hc
        rcases List.mem_cons.mp hc with rfl | hcl
        · exact hall _ ha
        · exact hall _ hcl
      · rintro ⟨b, hb, hall⟩
        refine ⟨b, ?_, fun c hc => hall c (List.mem_cons_of_mem a hc)⟩
        rcases List.mem_cons.mp hb with rfl | hbl
        · exact ha
        · exact hbl
    · rw [List.dedup_cons_of_not_mem ha]
      constructor
      · intro hlen
        have hl : l = [] := by simpa using hlen
        refine ⟨a, List.mem_cons_self a l, ?_⟩
        intro b hb
        rw [hl] at hb
        simpa using hb
      · rintro ⟨b, hb, hall⟩
        have hab : a = b := hall a (List.mem_cons_self a l)
        have hl : l = [] := by
          cases hl : l with
          | nil => rfl
          | cons c l' =>
            exfalso
            have hcb : c = b := hall c (by rw [hl]; exact List.mem_cons_of_mem a (List.mem_cons_self c l'))
            refine ha ?_
            rw [hl, hab, ← hcb]
            exact List.mem_cons_self c l'
        rw [hl]
        simp

/-- The Boolean classifier `__on_happy_path`, characterized: every present
fill is a `FillImage`, every destination channel equals its source channel,
and there is exactly one referenced source image. -/
theorem onHappyPath_iff (e : ExportImage) :
    onHappyPath e = true ↔
      ((∀ p ∈ e.fills, p.2.isFromImage = true) ∧
       (∀ p ∈ e.fills, ∀ n s, p.2 = Fill.fromImage n s → p.1 = s) ∧
       (∃ n, n ∈ fillNames e.fills ∧ ∀ m ∈ fillNames e.fills, m = n)) := by
  unfold onHappyPath
  simp only [Bool.and_eq_true, List.all_eq_true, beq_iff_eq]
  constructor
  · rintro ⟨⟨h1, h2⟩, h3⟩
    refine ⟨h1, ?_, dedup_length_one.mp h3⟩
    intro p hp n s hps
    have := h2 p hp
    rw [hps] at this
    simpa using this
  · rintro ⟨h1, h2, h3⟩
    refine ⟨⟨h1, ?_⟩, dedup_length_one.mpr h3⟩
    intro p hp
    cases hps : p.2 with
    | white => rfl
    | fromImage n s =>
      simpa using h2 p hp n s hps

/-- On the happy path all referenced image names agree. -/
theorem happy_names_eq {e : ExportImage} (h : onHappyPath e = true) :
    ∀ n1 ∈ fillNames e.fills, ∀ n2 ∈ fillNames e.fills, n1 = n2 := by
  obtain ⟨-, -, n, -, hall⟩ := (onHappyPath_iff e).mp h
  intro n1 h1 n2 h2
  rw [hall n1 h1, hall n2 h2]

/-- On the happy path the fills dict is nonempty and starts with a
`FillImage`. -/
theorem happy_head {e : ExportImage} (h : onHappyPath e = true) :
    ∃ d n s rest, e.fills = (d, Fill.fromImage n s) :: rest := by
  obtain ⟨h1, -, n, hn, -⟩ := (onHappyPath_iff e).mp h
  cases hf : e.fills with
  | nil =>
    exfalso
    rw [hf] at hn
    simp [fillNames] at hn
  | cons p rest =>
    obtain ⟨d, fl⟩ := p
    cases fl with
    | white =>
      exfalso
      have := h1 (d, Fill.white) (by rw [hf]; exact List.mem_cons_self _ _)
      simp [Fill.isFromImage] at this
    | fromImage m s =>
      exact ⟨d, m, s, rest, rfl⟩

/-! ### Fast-path lemmas -/

/-- When the target format matches, the image is clean and the backing file
is readable, `__encode_from_image` returns the on-disk bytes and touches
nothing. -/
theorem encodeFromImage_verbatim (env : Env) (store : Store) (n : String)
    (mime : Option String) (b : Bytes)
    (hfmt : fileFormatOfMime mime = (store n).file_format)
    (hdirty : (store n).is_dirty = false)
    (hisfile : env.isfile (env.abspath (store n).filepath_raw) = true)
    (hread : env.readFile (env.abspath (store n).filepath_raw) = some b) :
    encodeFromImage env store n mime = (.ok b, store) := by
  unfold encodeFromImage
  rw [if_pos (by rw [hfmt, hdirty]; simp)]
  rw [if_pos hisfile, hread]

/-- A backing file that passes `os.path.isfile` but whose unguarded
`open`/`read` raises makes the fast path raise: the OSError propagates
unrecovered and the store is untouched. -/
theorem encodeFromImage_unreadable (env : Env) (store : Store) (n : String)
    (mime : Option String)
    (hfmt : fileFormatOfMime mime = (store n).file_format)
    (hdirty : (store n).is_dirty = false)
    (hisfile : env.isfile (env.abspath (store n).filepath_raw) = true)
    (hread : env.readFile (env.abspath (store n).filepath_raw) = none) :
    encodeFromImage env store n mime = (.error .readFailure, store) := by
  unfold encodeFromImage
  rw [if_pos (by rw [hfmt, hdirty]; simp)]
  rw [if_pos hisfile, hread]

theorem restoredImg_eq (env : Env) (store : Store) (n : String) (fmt : String) :
    restoredImg env store n fmt = store n := by
  have h1 : (store.updateImg n (mutatedImg env store n fmt)) n =
      mutatedImg env store n fmt := updateImg_self _ _ _
  unfold restoredImg
  rw [h1]
  rfl

/-- The `finally` block of the save branch restores
`filepath_raw`/`file_format`, so the store is untouched pointwise, whether
the save succeeded or raised. -/
theorem restoredStore_eq (env : Env) (store : Store) (n : String) (fmt : String) :
    ∀ m, restoredStore env store n fmt m = store m := by
  intro m
  unfold restoredStore
  by_cases hm : m = n
  · rw [hm, updateImg_self, restoredImg_eq]
  · rw [updateImg_ne _ _ _ _ hm, updateImg_ne _ _ _ _ hm]

theorem saveBranch_result_ok (env : Env) (store : Store) (n : String)
    (fmt : String) (b : Bytes)
    (h : env.save (mutatedImg env store n fmt) = some b) :
    (saveBranch env store n fmt).1 = .ok b := by
  unfold saveBranch
  rw [h]

theorem saveBranch_result_err (env : Env) (store : Store) (n : String)
    (fmt : String)
    (h : env.save (mutatedImg env store n fmt) = none) :
    (saveBranch env store n fmt).1 = .error .saveFailure := by
  unfold saveBranch
  rw [h]

theorem saveBranch_store (env : Env) (store : Store) (n : String) (fmt : String) :
    ∀ m, (saveBranch env store n fmt).2 m = store m := by
  intro m
  unfold saveBranch
  cases env.save (mutatedImg env store n fmt) with
  | none => exact restoredStore_eq env store n fmt m
  | some b => exact restoredStore_eq env store n fmt m

/-- When the target format matches and the image is clean but the backing
file fails the `os.path.isfile` check, `__encode_from_image` falls through
to the save branch. -/
theorem encodeFromImage_fallthrough (env : Env) (store : Store) (n : String)
    (mime : Option String)
    (hfmt : fileFormatOfMime mime = (store n).file_format)
    (hdirty : (store n).is_dirty = false)
    (hmiss : env.isfile (env.abspath (store n).filepath_raw) = false) :
    encodeFromImage env store n mime = saveBranch env store n (fileFormatOfMime mime) := by
  unfold encodeFromImage
  rw [if_pos (by rw [hfmt, hdirty]; simp)]
  rw [if_neg (by rw [hmiss]; simp)]

/-- When the fills dict starts with a `FillImage`, `__encode_happy`
encodes from that image. -/
theorem encodeHappy_eq (env : Env) (store : Store) (e : ExportImage)
    (d : Chan) (n : String) (s : Chan) (rest : Fills)
    (h : e.fills = (d, Fill.fromImage n s) :: rest) :
    encodeHappy env store e = encodeFromImage env store n e.mime_type := by
  unfold encodeHappy
  rw [h]

/-! ### Format resolution lemmas -/

theorem sceneFileFormat_eq (mime : Option String) :
    sceneFileFormat mime = fileFormatOfMime mime := by
  cases mime with
  | none => rfl
  | some m =>
    show (if m = "" then "PNG" else fileFormatOfMime (some m)) = fileFormatOfMime (some m)
    by_cases hm : m = ""
    · rw [if_pos hm, hm]
      rfl
    · rw [if_neg hm]

theorem mutatedImg_format (env : Env) (store : Store) (n : String) (fmt : String) :
    (mutatedImg env store n fmt).file_format = fmt := rfl

/-- The format of bytes produced by the save branch is the requested one
(given that `image.save()` respects `image.file_format`). -/
theorem saveBranch_format (env : Env) (store : Store) (n : String)
    (fmt : String) (b : Bytes) (st' : Store)
    (Hsave : ∀ img bb, env.save img = some bb → env.formatOf bb = img.file_format)
    (h : saveBranch env store n fmt = (.ok b, st')) :
    env.formatOf b = fmt := by
  unfold saveBranch at h
  cases hs : env.save (mutatedImg env store n fmt) with
  | none =>
    rw [hs] at h
    simp at h
  | some bb =>
    rw [hs] at h
    have hb : bb = b := by
      have := congrArg Prod.fst h
      simpa using this
    rw [← hb]
    exact Hsave _ _ hs

/-- Whatever branch `__encode_from_image` takes, bytes it returns are in
the container resolved from the mime type (under the asset-store and
engine assumptions about `env`). -/
theorem encodeFromImage_format (env : Env) (store : Store) (n : String)
    (mime : Option String) (b : Bytes) (st' : Store)
    (Hsave : ∀ img bb, env.save img = some bb → env.formatOf bb = img.file_format)
    (Hfs : ∀ bb, env.readFile (env.abspath (store n).filepath_raw) = some bb →
        env.formatOf bb = (store n).file_format)
    (h : encodeFromImage env store n mime = (.ok b, st')) :
    env.formatOf b = fileFormatOfMime mime := by
  unfold encodeFromImage at h
  by_cases hc : (fileFormatOfMime mime == (store n).file_format &&
      !(store n).is_dirty) = true
  · rw [if_pos hc] at h
    have hfmt : fileFormatOfMime mime = (store n).file_format := by
      have := (Bool.and_eq_true _ _).mp hc
      exact beq_iff_eq.mp this.1
    by_cases hisfile : env.isfile (env.abspath (store n).filepath_raw) = true
    · rw [if_pos hisfile] at h
      cases hfs : env.readFile (env.abspath (store n).filepath_raw) with
      | some bytes =>
        rw [hfs] at h
        have hb : bytes = b := by
          have := congrArg Prod.fst h
          simpa using this
        rw [← hb, Hfs bytes hfs, hfmt]
      | none =>
        rw [hfs] at h
        have := congrArg Prod.fst h
        simp at this
    · rw [if_neg hisfile] at h
      exact saveBranch_format env store n _ b st' Hsave h
  · rw [if_neg hc] at h
    exact saveBranch_format env store n _ b st' Hsave h

/-- A successful composite render yields bytes in the container resolved
from the mime type recorded on the instance. -/
theorem encodeUnhappy_format (env : Env) (store : Store) (e : ExportImage)
    (b : Bytes) (st' : Store)
    (Hrender : ∀ req bb, env.render req = some bb → env.formatOf bb = req.fileFormat)
    (h : encodeUnhappy env store e = (.ok b, st')) :
    env.formatOf b = fileFormatOfMime e.mime_type := by
  unfold encodeUnhappy unhappyPayload at h
  have h1 := congrArg Prod.fst h
  simp only at h1
  cases herr : (unhappyLoop store [] none e.fills).err with
  | some err =>
    rw [herr] at h1
    simp at h1
  | none =>
    rw [herr] at h1
    unfold renderResult at h1
    cases hr : env.render (buildRenderRequest e.mime_type e.fills
        ((unhappyLoop store [] none e.fills).size.getD (1, 1)).1
        ((unhappyLoop store [] none e.fills).size.getD (1, 1)).2) with
    | none =>
      rw [hr] at h1
      simp at h1
    | some bb =>
      rw [hr] at h1
      have hb : bb = b := by simpa using h1
      rw [← hb, Hrender _ _ hr]
      exact sceneFileFormat_eq e.mime_type

/-! ### Dispatch and builder lemmas -/

/-- The classifier only reads the fills dict, never the mime field. -/
theorem onHappyPath_mime (e : ExportImage) (m : Option (Option String)) :
    onHappyPath { e with mimeTypeField := m } = onHappyPath e := rfl

theorem encode_happy_case (env : Env) (store : Store) (e : ExportImage)
    (mime : Option String)
    (h : onHappyPath { e with mimeTypeField := some mime } = true) :
    ExportImage.encode env store e mime =
      (encodeHappy env store { e with mimeTypeField := some mime },
       { e with mimeTypeField := some mime }) := by
  unfold ExportImage.encode
  rw [if_pos h]

theorem encode_unhappy_case (env : Env) (store : Store) (e : ExportImage)
    (mime : Option String)
    (h : onHappyPath { e with mimeTypeField := some mime } = false) :
    ExportImage.encode env store e mime =
      (encodeUnhappy env store { e with mimeTypeField := some mime },
       { e with mimeTypeField := some mime }) := by
  unfold ExportImage.encode
  rw [if_neg (by simp [h])]

theorem from_blender_acc (nm : String) :
    ∀ k : Nat,
      (List.range k).foldl (fun acc c => acc.fill_image nm c c)
          ({ fills := [] } : ExportImage) =
        { fills := (List.range k).map (fun c => (c, Fill.fromImage nm c)) } := by
  intro k
  induction k with
  | zero => rfl
  | succ k ih =>
    rw [List.range_succ, List.foldl_append, ih, List.foldl_cons, List.foldl_nil]
    show ({ fills := (List.range k).map (fun c => (c, Fill.fromImage nm c)) } :
        ExportImage).fill_image nm k k = _
    unfold ExportImage.fill_image
    have hfresh : (((List.range k).map (fun c => (c, Fill.fromImage nm c))).any
        (fun p => p.1 == k)) = false := by
      rw [List.any_eq_false]
      intro p hp
      obtain ⟨c, hc, rfl⟩ := List.mem_map.mp hp
      have hck : c < k := List.mem_range.mp hc
      simp [Nat.ne_of_lt hck]
    unfold dictSet
    rw [hfresh]
    simp only [Bool.false_eq_true, if_false]
    rw [List.map_append]
    rfl

theorem from_blender_fills (img : Image) :
    (from_blender_image img).fills =
      (List.range img.channels).map (fun c => (c, Fill.fromImage img.name c)) := by
  unfold from_blender_image
  rw [from_blender_acc]

theorem fillNames_map_range (nm : String) (l : List Nat) :
    fillNames (l.map (fun c => (c, Fill.fromImage nm c))) = l.map (fun _ => nm) := by
  induction l with
  | nil => rfl
  | cons c l ih =>
    show fillNames ((c, Fill.fromImage nm c) :: l.map (fun c => (c, Fill.fromImage nm c))) = _
    unfold fillNames at ih ⊢
    rw [List.filterMap_cons]
    simp only [List.map_cons]
    rw [ih]

/-- A spec built by `from_blender_image` from an image with at least one
channel is classified happy-path. -/
theorem from_blender_happy (img : Image) (hch : 0 < img.channels) :
    onHappyPath (from_blender_image img) = true := by
  rw [onHappyPath_iff]
  have hf := from_blender_fills img
  refine ⟨?_, ?_, ?_⟩
  · intro p hp
    rw [hf] at hp
    obtain ⟨c, -, rfl⟩ := List.mem_map.mp hp
    rfl
  · intro p hp n s hps
    rw [hf] at hp
    obtain ⟨c, -, rfl⟩ := List.mem_map.mp hp
    have heq : Fill.fromImage img.name c = Fill.fromImage n s := hps
    cases heq
    rfl
  · refine ⟨img.name, ?_, ?_⟩
    · rw [hf, fillNames_map_range]
      exact List.mem_map.mpr ⟨0, List.mem_range.mpr hch, rfl⟩
    · intro m hm
      rw [hf, fillNames_map_range] at hm
      obtain ⟨c, -, rfl⟩ := List.mem_map.mp hm
      rfl

/-! ### Further dispatch helpers -/

/-- The render request's color mode is `RGBA` exactly when channel A has a
fill. -/
theorem colorMode_iff (mime : Option String) (fills : Fills) (w h : Nat) :
    (buildRenderRequest mime fills w h).colorMode = "RGBA" ↔
      dictMem fills channelA = true := by
  show (if dictMem fills channelA then "RGBA" else "RGB") = "RGBA" ↔ _
  by_cases hA : dictMem fills channelA = true
  · rw [if_pos hA]
    simp [hA]
  · rw [if_neg hA]
    constructor
    · intro hstr
      exact absurd hstr (by decide)
    · intro hmem
      exact absurd hmem hA

/-- A pending loop exception is what `__encode_unhappy` raises. -/
theorem encodeUnhappy_err (env : Env) (store : Store) (e : ExportImage)
    (err : EncErr)
    (h : (unhappyLoop store [] none e.fills).err = some err) :
    (encodeUnhappy env store e).1 = .error err := by
  unfold encodeUnhappy unhappyPayload
  rw [h]

/-! ### The claims -/

/-- Claim C1: the classifier selects the fast path iff all three hold:
every present fill is a `FillImage`, every present entry's destination
channel equals its source channel, and all `FillImage` entries reference
the same source image (identity being the unique `bpy.data` image name). -/
theorem classifier_fast_path_iff (e : ExportImage) :
    onHappyPath e = true ↔
      ((∀ p ∈ e.fills, p.2.isFromImage = true) ∧
       (∀ p ∈ e.fills, ∀ n s, p.2 = Fill.fromImage n s → p.1 = s) ∧
       (∃ n, n ∈ fillNames e.fills ∧ ∀ m ∈ fillNames e.fills, m = n)) :=
  onHappyPath_iff e

/-- Claim C9 (counterexample): `encode` does not keep the requested mime
type purely call-scoped: at a concrete input, the spec object after
`encode` differs from the spec object before the call, because `encode`
wrote the `mime_type` instance field. -/
theorem mime_field_mutation_cex :
    (ExportImage.encode env0 store0 { fills := [] } none).2 =
      ({ fills := [], mimeTypeField := some none } : ExportImage) ∧
    ({ fills := [], mimeTypeField := some none } : ExportImage) ≠
      ({ fills := [] } : ExportImage) :=
  ⟨rfl, by decide⟩

/-- Claim C9 (amended): `encode` records the requested mime type as the
mutable `mime_type` field on the spec object itself (shared with the
helper methods through `self`); apart from that bookkeeping, the fill
mapping is left unchanged. -/
theorem mime_stored_on_instance (env : Env) (store : Store) (e : ExportImage)
    (mime : Option String) :
    (ExportImage.encode env store e mime).2 = { e with mimeTypeField := some mime } ∧
    (ExportImage.encode env store e mime).2.fills = e.fills := by
  unfold ExportImage.encode
  by_cases h : onHappyPath { e with mimeTypeField := some mime } = true
  · rw [if_pos h]
    exact ⟨rfl, rfl⟩
  · rw [if_neg h]
    exact ⟨rfl, rfl⟩

/-- Claim C10: with no fills at all the classifier returns false (the
per-fill conditions hold vacuously, but the set of referenced names is
empty, not of size one), so `encode` takes the composite path and renders
a 1×1 scene with color mode `RGB` and every combine input at the default
constant 1.0, leaving the image store unchanged. -/
theorem empty_spec_composite_default (env : Env) (store : Store)
    (mime : Option String) :
    onHappyPath { fills := [], mimeTypeField := some mime } = false ∧
    (ExportImage.encode env store { fills := [] } mime).1.1 =
      renderResult env (buildRenderRequest mime [] 1 1) ∧
    (buildRenderRequest mime [] 1 1).width = 1 ∧
    (buildRenderRequest mime [] 1 1).height = 1 ∧
    (buildRenderRequest mime [] 1 1).colorMode = "RGB" ∧
    (buildRenderRequest mime [] 1 1).combInputs =
      [.const 1, .const 1, .const 1, .const 1] ∧
    ∀ m, (ExportImage.encode env store { fills := [] } mime).1.2 m = store m :=
  ⟨rfl, rfl, rfl, rfl, rfl, rfl, fun _ => rfl⟩

/-- Claim C2: for any composite-path call to `encode`, whether it returns
bytes or raises, every image's colorspace tag afterwards equals its value
immediately before the call; the tags were saved once per distinct image
(first reference wins: the saved keys are distinct and each saved value is
the pre-call tag) and restored in the guaranteed `finally` block. -/
theorem composite_colorspace_restored (env : Env) (store : Store)
    (e : ExportImage) (mime : Option String)
    (hpath : onHappyPath { e with mimeTypeField := some mime } = false) :
    (∀ m, ((ExportImage.encode env store e mime).1.2 m).colorspace =
        (store m).colorspace) ∧
    ((unhappyLoop store [] none e.fills).origColorspaces.map Prod.fst).Nodup ∧
    (∀ p ∈ (unhappyLoop store [] none e.fills).origColorspaces,
        p.2 = (store p.1).colorspace) := by
  have hinv := unhappyLoop_inv store e.fills store [] none
    ⟨by simp, fun p hp => absurd hp (by simp)⟩ (fun n _ => rfl)
    (fun n => setColorspace_self (store n))
  refine ⟨?_, hinv.1.1, hinv.1.2⟩
  intro m
  rw [encode_unhappy_case env store e mime hpath]
  show ((encodeUnhappy env store { e with mimeTypeField := some mime }).2 m).colorspace =
    (store m).colorspace
  rw [encodeUnhappy_store env store _ m]

theorem composite_colorspace_restored_witness :
    onHappyPath { spec2 with mimeTypeField := some none } = false ∧
    ((∀ m, ((ExportImage.encode env0 store0 spec2 none).1.2 m).colorspace =
        (store0 m).colorspace) ∧
     ((unhappyLoop store0 [] none spec2.fills).origColorspaces.map Prod.fst).Nodup ∧
     (∀ p ∈ (unhappyLoop store0 [] none spec2.fills).origColorspaces,
        p.2 = (store0 p.1).colorspace)) :=
  ⟨by decide, composite_colorspace_restored env0 store0 spec2 none (by decide)⟩

/-- Claim C3: if the spec's `FillImage` fills reference images that
disagree in pixel width or height, `encode` raises the dimension-mismatch
assert, the error propagates to the caller, and no bytes are produced. -/
theorem dimension_mismatch_raises (env : Env) (store : Store) (e : ExportImage)
    (mime : Option String) (d1 d2 s1 s2 : Chan) (n1 n2 : String)
    (h1 : (d1, Fill.fromImage n1 s1) ∈ e.fills)
    (h2 : (d2, Fill.fromImage n2 s2) ∈ e.fills)
    (hsize : imgSize store n1 ≠ imgSize store n2) :
    (ExportImage.encode env store e mime).1.1 = .error .dimensionMismatch := by
  have hm1 : n1 ∈ fillNames e.fills :=
    List.mem_filterMap.mpr ⟨(d1, Fill.fromImage n1 s1), h1, rfl⟩
  have hm2 : n2 ∈ fillNames e.fills :=
    List.mem_filterMap.mpr ⟨(d2, Fill.fromImage n2 s2), h2, rfl⟩
  have hpath : onHappyPath { e with mimeTypeField := some mime } = false := by
    cases hb : onHappyPath { e with mimeTypeField := some mime } with
    | false => rfl
    | true =>
      exfalso
      have hnames := happy_names_eq (e := { e with mimeTypeField := some mime }) hb
      exact hsize (by rw [hnames n1 hm1 n2 hm2])
  have herr : (unhappyLoop store [] none e.fills).err = some .dimensionMismatch := by
    rcases unhappyLoop_err_cases e.fills store [] none with hnone | hsome
    · exact absurd (unhappyLoop_none_sizes store e.fills store []
        (fun n => setColorspace_self (store n)) hnone n1 hm1 n2 hm2) hsize
    · exact hsome
  have herr' : (unhappyLoop store [] none
      ({ e with mimeTypeField := some mime } : ExportImage).fills).err =
        some .dimensionMismatch := herr
  rw [encode_unhappy_case env store e mime hpath]
  exact encodeUnhappy_err env store _ _ herr'

theorem dimension_mismatch_raises_witness :
    ((0 : Chan), Fill.fromImage "A" 0) ∈ spec3.fills ∧
    ((1 : Chan), Fill.fromImage "B" 1) ∈ spec3.fills ∧
    imgSize store0 "A" ≠ imgSize store0 "B" ∧
    (ExportImage.encode env0 store0 spec3 none).1.1 = .error .dimensionMismatch :=
  ⟨by decide, by decide, by decide,
   dimension_mismatch_raises env0 store0 spec3 none 0 1 0 1 "A" "B"
     (by decide) (by decide) (by decide)⟩

/-- Claim C4: on the fast path, if the persisted container format equals
the resolved target, the image has no unsaved edits, and the backing file
exists, then `encode` returns exactly the backing file's bytes — no
recompression, no mutation of the store. -/
theorem fast_path_verbatim_reuse (env : Env) (store : Store) (e : ExportImage)
    (mime : Option String) (d s : Chan) (n : String) (rest : Fills) (b : Bytes)
    (hfills : e.fills = (d, Fill.fromImage n s) :: rest)
    (hhappy : onHappyPath { e with mimeTypeField := some mime } = true)
    (hfmt : fileFormatOfMime mime = (store n).file_format)
    (hdirty : (store n).is_dirty = false)
    (hisfile : env.isfile (env.abspath (store n).filepath_raw) = true)
    (hread : env.readFile (env.abspath (store n).filepath_raw) = some b) :
    ExportImage.encode env store e mime =
      ((.ok b, store), { e with mimeTypeField := some mime }) := by
  rw [encode_happy_case env store e mime hhappy]
  have hfills' : ({ e with mimeTypeField := some mime } : ExportImage).fills =
      (d, Fill.fromImage n s) :: rest := hfills
  rw [encodeHappy_eq env store _ d n s rest hfills', mime_type_set_mime,
    encodeFromImage_verbatim env store n mime b hfmt hdirty hisfile hread]

theorem fast_path_verbatim_reuse_witness :
    onHappyPath { spec4 with mimeTypeField := some none } = true ∧
    fileFormatOfMime none = (store0 "A").file_format ∧
    (store0 "A").is_dirty = false ∧
    env0.isfile (env0.abspath (store0 "A").filepath_raw) = true ∧
    env0.readFile (env0.abspath (store0 "A").filepath_raw) = some bytesA ∧
    ExportImage.encode env0 store0 spec4 none =
      ((.ok bytesA, store0), { spec4 with mimeTypeField := some none }) :=
  ⟨by decide, by decide, by decide, by decide, by decide,
   fast_path_verbatim_reuse env0 store0 spec4 none 0 0 "A" [] bytesA rfl
     (by decide) (by decide) (by decide) (by decide) (by decide)⟩

/-- Claim C5 (counterexample): an existing-but-unreadable backing file IS
fatal during fast-path verbatim reuse: at a concrete input where the
target format matches, the image is clean, `os.path.isfile` succeeds and
the unguarded `open` raises, `__encode_from_image` raises a read error —
it does not fall through to the re-save branch and produces no bytes. -/
theorem unreadable_file_fatal_cex :
    fileFormatOfMime none = (store0 "A").file_format ∧
    (store0 "A").is_dirty = false ∧
    envUnread.isfile (envUnread.abspath (store0 "A").filepath_raw) = true ∧
    envUnread.readFile (envUnread.abspath (store0 "A").filepath_raw) = none ∧
    (encodeFromImage envUnread store0 "A" none).1 = .error .readFailure :=
  ⟨by decide, by decide, by decide, by decide, rfl⟩

/-- Claim C5 (amended): during fast-path verbatim reuse, a backing file
that fails the `os.path.isfile` check is not fatal: instead of raising,
`encode` falls through to the branch that re-saves the image into the
target format at a temporary location, returns the re-saved bytes (or
propagates the save failure), and in both cases unconditionally restores
the image's original `filepath_raw`/`file_format` metadata, leaving the
store unchanged.  A backing file that passes the `isfile` check but then
fails to open, however, raises a read error that propagates unrecovered. -/
theorem fast_path_missing_file_falls_through (env : Env) (store : Store)
    (n : String) (mime : Option String)
    (hfmt : fileFormatOfMime mime = (store n).file_format)
    (hdirty : (store n).is_dirty = false) :
    (env.isfile (env.abspath (store n).filepath_raw) = false →
      (∀ b, env.save (mutatedImg env store n (fileFormatOfMime mime)) = some b →
          (encodeFromImage env store n mime).1 = .ok b) ∧
      (env.save (mutatedImg env store n (fileFormatOfMime mime)) = none →
          (encodeFromImage env store n mime).1 = .error .saveFailure) ∧
      (∀ m, (encodeFromImage env store n mime).2 m = store m)) ∧
    (env.isfile (env.abspath (store n).filepath_raw) = true →
      env.readFile (env.abspath (store n).filepath_raw) = none →
      (encodeFromImage env store n mime).1 = .error .readFailure ∧
      (∀ m, (encodeFromImage env store n mime).2 m = store m)) := by
  constructor
  · intro hmiss
    have hft := encodeFromImage_fallthrough env store n mime hfmt hdirty hmiss
    refine ⟨?_, ?_, ?_⟩
    · intro b hb
      rw [hft]
      exact saveBranch_result_ok env store n _ b hb
    · intro hb
      rw [hft]
      exact saveBranch_result_err env store n _ hb
    · intro m
      rw [hft]
      exact saveBranch_store env store n _ m
  · intro hisfile hread
    have hun := encodeFromImage_unreadable env store n mime hfmt hdirty hisfile hread
    rw [hun]
    exact ⟨rfl, fun _ => rfl⟩

theorem fast_path_missing_file_falls_through_witness :
    fileFormatOfMime none = (store0 "B").file_format ∧
    (store0 "B").is_dirty = false ∧
    envOk.isfile (envOk.abspath (store0 "B").filepath_raw) = false ∧
    ((∀ b, envOk.save (mutatedImg envOk store0 "B" (fileFormatOfMime none)) = some b →
        (encodeFromImage envOk store0 "B" none).1 = .ok b) ∧
     (envOk.save (mutatedImg envOk store0 "B" (fileFormatOfMime none)) = none →
        (encodeFromImage envOk store0 "B" none).1 = .error .saveFailure) ∧
     (∀ m, (encodeFromImage envOk store0 "B" none).2 m = store0 m)) ∧
    ((encodeFromImage envUnread store0 "A" none).1 = .error .readFailure ∧
     (∀ m, (encodeFromImage envUnread store0 "A" none).2 m = store0 m)) :=
  ⟨by decide, by decide, by decide,
   (fast_path_missing_file_falls_through envOk store0 "B" none
      (by decide) (by decide)).1 (by decide),
   (fast_path_missing_file_falls_through envUnread store0 "A" none
      (by decide) (by decide)).2 (by decide) (by decide)⟩

/-- Claim C6: format resolution is the pure total mapping
`"image/jpeg" ↦ JPEG`, `"image/png" ↦ PNG`, anything else or absent
`↦ PNG`; and — assuming the engine renders in the requested format, saves
respect `image.file_format`, and backing files hold bytes in the image's
persisted format — every successful `encode`, fast path or composite,
returns bytes in the container so resolved. -/
theorem format_resolution_and_container :
    (fileFormatOfMime (some "image/jpeg") = "JPEG" ∧
     fileFormatOfMime (some "image/png") = "PNG" ∧
     fileFormatOfMime none = "PNG" ∧
     (∀ s, s ≠ "image/jpeg" → s ≠ "image/png" → fileFormatOfMime (some s) = "PNG")) ∧
    (∀ (env : Env) (store : Store) (e : ExportImage) (mime : Option String)
        (b : Bytes) (st' : Store) (e' : ExportImage),
        (∀ req bb, env.render req = some bb → env.formatOf bb = req.fileFormat) →
        (∀ img bb, env.save img = some bb → env.formatOf bb = img.file_format) →
        (∀ n bb, env.readFile (env.abspath (store n).filepath_raw) = some bb →
            env.formatOf bb = (store n).file_format) →
        ExportImage.encode env store e mime = ((.ok b, st'), e') →
        env.formatOf b = fileFormatOfMime mime) := by
  constructor
  · refine ⟨rfl, rfl, rfl, ?_⟩
    intro s h1 h2
    unfold fileFormatOfMime
    split <;> simp_all
  · intro env store e mime b st' e' Hrender Hsave Hfs henc
    by_cases hh : onHappyPath { e with mimeTypeField := some mime } = true
    · rw [encode_happy_case env store e mime hh] at henc
      have h1 : encodeHappy env store { e with mimeTypeField := some mime } =
          (.ok b, st') := by
        have := congrArg Prod.fst henc
        simpa using this
      obtain ⟨d, n, s, rest, hfills⟩ :=
        happy_head (e := { e with mimeTypeField := some mime }) hh
      rw [encodeHappy_eq env store _ d n s rest hfills, mime_type_set_mime] at h1
      exact encodeFromImage_format env store n mime b st' Hsave (Hfs n) h1
    · have hh' : onHappyPath { e with mimeTypeField := some mime } = false := by
        cases hb : onHappyPath { e with mimeTypeField := some mime } with
        | false => rfl
        | true => exact absurd hb hh
      rw [encode_unhappy_case env store e mime hh'] at henc
      have h1 : encodeUnhappy env store { e with mimeTypeField := some mime } =
          (.ok b, st') := by
        have := congrArg Prod.fst henc
        simpa using this
      have hres := encodeUnhappy_format env store _ b st' Hrender h1
      rw [mime_type_set_mime] at hres
      exact hres

theorem format_resolution_and_container_witness :
    ExportImage.encode envOk store0 spec4 none =
      ((.ok bytesA, store0), { spec4 with mimeTypeField := some none }) ∧
    envOk.formatOf bytesA = fileFormatOfMime none :=
  ⟨rfl,
   format_resolution_and_container.2 envOk store0 spec4 none bytesA store0
     { spec4 with mimeTypeField := some none }
     (by
       intro req bb h
       have hr : (if req.fileFormat = "PNG" then some [5] else none) = some bb := h
       show "PNG" = req.fileFormat
       by_cases hf : req.fileFormat = "PNG"
       · rw [hf]
       · rw [if_neg hf] at hr
         cases hr)
     (by
       intro img bb h
       have hs : (if img.file_format = "PNG" then some [7] else none) = some bb := h
       show "PNG" = img.file_format
       by_cases hf : img.file_format = "PNG"
       · rw [hf]
       · rw [if_neg hf] at hs
         cases hs)
     (by
       intro n bb _
       show "PNG" = (store0 n).file_format
       unfold store0
       by_cases hn : n = "B"
       · rw [if_pos hn]
         rfl
       · rw [if_neg hn]
         rfl)
     rfl⟩

/-- Claim C7: a composite-path encode is rendered with a color mode that
includes an alpha channel iff the spec has a fill (of either kind) for
destination channel A: the request builder picks `RGBA` exactly when
channel A is filled, and every successful composite encode went through a
render request with that color mode. -/
theorem composite_alpha_iff :
    (∀ (mime : Option String) (fills : Fills) (w h : Nat),
        ((buildRenderRequest mime fills w h).colorMode = "RGBA" ↔
          dictMem fills channelA = true)) ∧
    (∀ (env : Env) (store : Store) (e : ExportImage) (mime : Option String)
        (b : Bytes) (st' : Store) (e' : ExportImage),
        onHappyPath { e with mimeTypeField := some mime } = false →
        ExportImage.encode env store e mime = ((.ok b, st'), e') →
        ∃ req, env.render req = some b ∧
          req.colorMode = (if dictMem e.fills channelA then "RGBA" else "RGB") ∧
          (req.colorMode = "RGBA" ↔ dictMem e.fills channelA = true)) := by
  constructor
  · exact colorMode_iff
  · intro env store e mime b st' e' hpath henc
    rw [encode_unhappy_case env store e mime hpath] at henc
    have h1 : (encodeUnhappy env store { e with mimeTypeField := some mime }).1 =
        .ok b := by
      have := congrArg (fun x => x.1.1) henc
      simpa using this
    unfold encodeUnhappy unhappyPayload at h1
    cases herr : (unhappyLoop store [] none
        ({ e with mimeTypeField := some mime } : ExportImage).fills).err with
    | some err =>
      rw [herr] at h1
      simp at h1
    | none =>
      rw [herr] at h1
      unfold renderResult at h1
      cases hr : env.render (buildRenderRequest
          ({ e with mimeTypeField := some mime } : ExportImage).mime_type
          ({ e with mimeTypeField := some mime } : ExportImage).fills
          ((unhappyLoop store [] none
            ({ e with mimeTypeField := some mime } : ExportImage).fills).size.getD (1, 1)).1
          ((unhappyLoop store [] none
            ({ e with mimeTypeField := some mime } : ExportImage).fills).size.getD (1, 1)).2) with
      | none =>
        rw [hr] at h1
        simp at h1
      | some bb =>
        rw [hr] at h1
        have hbb : bb = b := by simpa using h1
        refine ⟨_, hbb ▸ hr, rfl, colorMode_iff _ _ _ _⟩

theorem composite_alpha_iff_witness :
    onHappyPath { spec7 with mimeTypeField := some none } = false ∧
    ∃ req, envOk.render req = some [5] ∧
      req.colorMode = (if dictMem spec7.fills channelA then "RGBA" else "RGB") ∧
      (req.colorMode = "RGBA" ↔ dictMem spec7.fills channelA = true) :=
  ⟨by decide,
   composite_alpha_iff.2 envOk store0 spec7 none [5] store0
     { spec7 with mimeTypeField := some none } (by decide) rfl⟩

/-- Claim C8: for a source image with at least one native channel, the
spec built by `from_blender_image` (one matching-channel `FillImage` per
native channel, no further edits) is classified fast-path by `encode`, and
when the verbatim-reuse conditions hold (no recompression) the returned
bytes equal the asset's on-disk bytes verbatim. -/
theorem from_image_fast_path_identity (env : Env) (store : Store) (img : Image)
    (mime : Option String) (b : Bytes)
    (hch : 0 < img.channels)
    (hstore : store img.name = img)
    (hfmt : fileFormatOfMime mime = img.file_format)
    (hdirty : img.is_dirty = false)
    (hisfile : env.isfile (env.abspath img.filepath_raw) = true)
    (hread : env.readFile (env.abspath img.filepath_raw) = some b) :
    onHappyPath (from_blender_image img) = true ∧
    ExportImage.encode env store (from_blender_image img) mime =
      ((.ok b, store), { from_blender_image img with mimeTypeField := some mime }) := by
  have hhappy := from_blender_happy img hch
  have hhappy' : onHappyPath
      { from_blender_image img with mimeTypeField := some mime } = true := by
    rw [onHappyPath_mime]
    exact hhappy
  refine ⟨hhappy, ?_⟩
  obtain ⟨d, n, s, rest, hfills⟩ :=
    happy_head (e := { from_blender_image img with mimeTypeField := some mime }) hhappy'
  have hn : n = img.name := by
    have hmem : n ∈ fillNames
        ({ from_blender_image img with mimeTypeField := some mime } : ExportImage).fills := by
      rw [hfills]
      exact List.mem_filterMap.mpr ⟨(d, Fill.fromImage n s), List.mem_cons_self _ _, rfl⟩
    rw [fills_set_mime, from_blender_fills, fillNames_map_range] at hmem
    obtain ⟨c, -, hcn⟩ := List.mem_map.mp hmem
    exact hcn.symm
  rw [encode_happy_case env store _ mime hhappy']
  rw [encodeHappy_eq env store _ d n s rest hfills, mime_type_set_mime, hn]
  rw [encodeFromImage_verbatim env store img.name mime b
    (by rw [hstore]; exact hfmt) (by rw [hstore]; exact hdirty)
    (by rw [hstore]; exact hisfile) (by rw [hstore]; exact hread)]

theorem from_image_fast_path_identity_witness :
    0 < imgA.channels ∧
    store0 imgA.name = imgA ∧
    fileFormatOfMime none = imgA.file_format ∧
    imgA.is_dirty = false ∧
    env0.isfile (env0.abspath imgA.filepath_raw) = true ∧
    env0.readFile (env0.abspath imgA.filepath_raw) = some bytesA ∧
    (onHappyPath (from_blender_image imgA) = true ∧
     ExportImage.encode env0 store0 (from_blender_image imgA) none =
       ((.ok bytesA, store0),
        { from_blender_image imgA with mimeTypeField := some none })) :=
  ⟨by decide, by decide, by decide, by decide, by decide, by decide,
   from_image_fast_path_identity env0 store0 imgA none bytesA
     (by decide) (by decide) (by decide) (by decide) (by decide) (by decide)⟩

end GltfBlenderImage
